import Mathlib

/-!
Verification of the timed frame-compositing core of the holocron-generator
repository (`scripts/video-gen.py`): SRT cue parsing, greedy text wrapping,
footage segment selection, aspect-ratio normalization, image cycling and
per-frame composition.  Machine arithmetic on durations and pixel sizes is
embedded over `ℚ`; Python `int()` truncation is made explicit by `pyInt`;
the `random.uniform(0, m)` draw is modelled by a parameter `r ∈ [0, 1]`
scaled to `r * m`; PIL font metrics are abstracted as functions
`String → ℕ`, and the filesystem visible to the compositor as an explicit
read-only map `FS`.
-/

namespace HolocronGen

/-- Python `int()` on a rational: truncation toward zero. -/
def pyInt (x : ℚ) : ℤ := if 0 ≤ x then ⌊x⌋ else -⌊-x⌋

/-- Segment selection of `create_youtube_short` (video-gen.py lines 260-284):
given footage duration `F`, narration duration `A` and a uniform draw modelled
by `r * actualMax` for `r ∈ [0,1]`, returns the selected `(start, end)` bounds
of the footage segment, or `none` when the job is skipped. -/
def segmentBounds (F A r : ℚ) : Option (ℚ × ℚ) :=
  let maxStart80 := F * (4/5)
  let maxStartFit := F - A
  let actualMax := min maxStart80 maxStartFit
  if actualMax < 0 then none
  else
    let s := if actualMax = 0 ∧ A < F then 0 else r * actualMax
    let e0 := s + A
    let e := if F + 1/100 < e0 then F else e0
    some (s, e)

/-- One render job: footage duration, narration duration, the randomness
draw for segment selection, and the article title. -/
structure JobSpec where
  footageDuration : ℚ
  audioDuration : ℚ
  rand : ℚ
  title : String
  deriving DecidableEq

/-- Title sanitization of video-gen.py line 501: `'/'` replaced by `'_'`,
then the characters of the class `[\\/*?:"<>'"]` removed (34 and 39 are the
codepoints of the double and single quote). -/
def sanitizeTitle (title : String) : String :=
  String.mk ((title.toList.map (fun c => if c = '/' then '_' else c)).filter
    (fun c => !(c == '\\' || c == '/' || c == '*' || c == '?' || c == ':' ||
      c.toNat == 34 || c == '<' || c == '>' || c.toNat == 39)))

/-- Observable outcome of one `create_youtube_short` call: how many frames the
rendering stage produced (one per 1/30 s, the fixed `fps=30` of
`write_videofile`), and the artifact written (`none` when the job failed and
returned `False` before rendering). -/
structure JobOutcome where
  framesRendered : ℕ
  artifact : Option (String × ℚ)
  deriving DecidableEq

/-- Control-flow skeleton of `create_youtube_short`: segment selection either
fails (early `return False`: nothing rendered, nothing written) or succeeds,
after which the clip of duration `e - s` is rendered and written to the
sanitized output filename. -/
def create_youtube_short (j : JobSpec) : JobOutcome :=
  match segmentBounds j.footageDuration j.audioDuration j.rand with
  | none => ⟨0, none⟩
  | some (s, e) =>
      ⟨(pyInt ((e - s) * 30)).toNat, some (sanitizeTitle j.title ++ "_short.mp4", e - s)⟩

/-- The `__main__` batch loop (video-gen.py lines 549-595): each audio file is
processed independently; a job's failure only affects its own entry. -/
def processJobs (js : List JobSpec) : List (String × JobOutcome) :=
  js.map (fun j => (j.title, create_youtube_short j))

/-- Python `" ".join(ws)`. -/
def joinWords : List String → String
  | [] => ""
  | [w] => w
  | w :: ws => w ++ " " ++ joinWords ws

/-- The loop of `dynamic_wrap_text` (video-gen.py lines 204-224), kept at the
level of word lists: `cur` is `current_line`, each produced line is the word
list later joined by a single space.  `meas` is the PIL text-width metric of
the font in use. -/
def wrapList (meas : String → ℕ) (bound : ℕ) : List String → List String → List (List String)
  | [], cur => if cur.isEmpty then [] else [cur]
  | w :: ws, cur =>
    if meas (joinWords (cur ++ [w])) ≤ bound then wrapList meas bound ws (cur ++ [w])
    else if cur.isEmpty then [w] :: wrapList meas bound ws []
    else cur :: wrapList meas bound ws [w]

/-- Python `text.split()`: maximal runs of non-whitespace characters. -/
def wordsAux : List Char → List Char → List String
  | [], cur => if cur.isEmpty then [] else [String.mk cur.reverse]
  | c :: cs, cur =>
    if c.isWhitespace then
      if cur.isEmpty then wordsAux cs [] else String.mk cur.reverse :: wordsAux cs []
    else wordsAux cs (c :: cur)

/-- Python `text.split()`. -/
def splitWords (s : String) : List String := wordsAux s.toList []

/-- `dynamic_wrap_text` of video-gen.py lines 190-226: greedy word wrap of
`text` into lines measuring at most `maxWidth` under the metric `meas`. -/
def dynamic_wrap_text (meas : String → ℕ) (maxWidth : ℕ) (text : String) : List String :=
  if text = "" then [] else (wrapList meas maxWidth (splitWords text) []).map joinWords

/-- One subtitle entry as built by `parse_srt` (the source dict's
`'start'`, `'end'`, `'text'` keys; `end` is a reserved word, hence `stop`). -/
structure Cue where
  start : ℚ
  stop : ℚ
  text : String
  deriving DecidableEq

/-- Python `str.split(sep)` for a one-character separator. -/
def splitOnChar (sep : Char) : List Char → List (List Char)
  | [] => [[]]
  | c :: cs =>
    if c = sep then [] :: splitOnChar sep cs
    else
      match splitOnChar sep cs with
      | [] => [[c]]
      | r :: rs => (c :: r) :: rs

/-- The `' --> '` separator of an SRT time-range line. -/
def arrowSep : List Char := [' ', '-', '-', '>', ' ']

/-- Python `str.split(' --> ')`: left-to-right scan for non-overlapping
occurrences of the five-character arrow separator. -/
def splitArrowAux : List Char → List Char → List (List Char)
  | [], acc => [acc.reverse]
  | ' ' :: '-' :: '-' :: '>' :: ' ' :: rest, acc => acc.reverse :: splitArrowAux rest []
  | c :: cs, acc => splitArrowAux cs (c :: acc)

/-- Python `timeLine.split(' --> ')`. -/
def splitArrow (cs : List Char) : List (List Char) := splitArrowAux cs []

/-- Value of a digit string read left to right. -/
def digitsVal (cs : List Char) : ℕ := cs.foldl (fun a c => a * 10 + (c.toNat - 48)) 0

/-- Parse a nonempty all-digit string. -/
def parseDigits (cs : List Char) : Option ℕ :=
  if cs ≠ [] ∧ cs.all Char.isDigit then some (digitsVal cs) else none

/-- Python `float()` restricted to the nonnegative decimal numerals the SRT
timestamp format produces (`"12"`, `"01.000"`, ...); anything else fails,
modelling the `ValueError` that makes `parse_srt` skip the block. -/
def parseDecimal (cs : List Char) : Option ℚ :=
  match splitOnChar '.' cs with
  | [ip] => (parseDigits ip).map (fun n => (n : ℚ))
  | [ip, fp] =>
    if ip.isEmpty ∧ fp.isEmpty then none
    else if ip.all Char.isDigit ∧ fp.all Char.isDigit then
      some ((digitsVal ip : ℚ) + (digitsVal fp : ℚ) / 10 ^ fp.length)
    else none
  | _ => none

/-- Python `int()` on a string (sign plus decimal digits); `none` models the
`ValueError` raised on anything else. -/
def pyParseInt (cs : List Char) : Option ℤ :=
  match cs with
  | '-' :: rest => (parseDigits rest).map (fun n => -(n : ℤ))
  | '+' :: rest => (parseDigits rest).map (fun n => (n : ℤ))
  | _ => (parseDigits cs).map (fun n => (n : ℤ))

/-- `srt_time_to_seconds` of video-gen.py lines 138-143: replace `','` by
`'.'`, split on `':'`; three parts are parsed as floats (a failure raises,
i.e. yields `none`), any other shape silently returns `0`. -/
def srtTimeToSeconds (cs : List Char) : Option ℚ :=
  match splitOnChar ':' (cs.map (fun c => if c = ',' then '.' else c)) with
  | [h, m, s] =>
    match parseDecimal h, parseDecimal m, parseDecimal s with
    | some hv, some mv, some sv => some (hv * 3600 + mv * 60 + sv)
    | _, _, _ => none
  | _ => some 0

/-- Parsing of one collected SRT block (video-gen.py lines 133-155): index
line must parse as an int, the time line must split into exactly two parts
around `' --> '`, both timestamps must convert; the text lines are joined
with a single space.  `none` models the caught exception that skips the
block with a warning. -/
def parseBlock (block : List String) : Option Cue :=
  match block with
  | idxLine :: timeLine :: textLines =>
    match pyParseInt idxLine.toList with
    | none => none
    | some _ =>
      match splitArrow timeLine.toList with
      | [st, en] =>
        match srtTimeToSeconds st, srtTimeToSeconds en with
        | some s, some e => some ⟨s, e, joinWords textLines⟩
        | _, _ => none
      | _ => none
  | _ => none

/-- Python `str.strip()` on the character list. -/
def trimChars (cs : List Char) : List Char :=
  ((cs.dropWhile Char.isWhitespace).reverse.dropWhile Char.isWhitespace).reverse

/-- Python `str.strip()`. -/
def trimS (s : String) : String := String.mk (trimChars s.toList)

/-- The line loop of `parse_srt` (video-gen.py lines 129-183): strip each
line, a blank line flushes the current block (a failed parse is skipped),
and a final nonempty block is flushed at end of input. -/
def parseSrtAux : List String → List String → List Cue
  | [], cur => if cur.isEmpty then [] else (parseBlock cur).toList
  | l :: ls, cur =>
    if trimS l = "" then
      if cur.isEmpty then parseSrtAux ls []
      else (parseBlock cur).toList ++ parseSrtAux ls []
    else parseSrtAux ls (cur ++ [trimS l])

/-- `parse_srt` on the list of lines of an existing SRT file. -/
def parse_srt (lines : List String) : List Cue := parseSrtAux lines []

/-- `parse_srt` including the missing-file guard of video-gen.py line 124:
`none` models a missing file and yields the empty cue list. -/
def parseSrtFile : Option (List String) → List Cue
  | none => []
  | some ls => parse_srt ls

/-- The blank-line block structure of an SRT input: same line scan as
`parseSrtAux` but collecting the raw blocks instead of parsing them. -/
def blocksAux : List String → List String → List (List String)
  | [], cur => if cur.isEmpty then [] else [cur]
  | l :: ls, cur =>
    if trimS l = "" then
      if cur.isEmpty then blocksAux ls [] else cur :: blocksAux ls []
    else blocksAux ls (cur ++ [trimS l])

/-- The blocks of an SRT input. -/
def blocksOf (lines : List String) : List (List String) := blocksAux lines []

/-- The character of a decimal digit. -/
def digitChar : ℕ → Char
  | 0 => '0' | 1 => '1' | 2 => '2' | 3 => '3' | 4 => '4'
  | 5 => '5' | 6 => '6' | 7 => '7' | 8 => '8' | 9 => '9'
  | _ => '?'

/-- Two-digit zero-padded rendering, for `n < 100`. -/
def pad2 (n : ℕ) : List Char := [digitChar (n / 10), digitChar (n % 10)]

/-- Three-digit zero-padded rendering, for `n < 1000`. -/
def pad3 (n : ℕ) : List Char := [digitChar (n / 100), digitChar (n / 10 % 10), digitChar (n % 10)]

/-- The well-formed SRT timestamp `HH:MM:SS,mmm`. -/
def timeRender (H M S ms : ℕ) : List Char :=
  pad2 H ++ ':' :: pad2 M ++ ':' :: pad2 S ++ ',' :: pad3 ms

/-- The subtitle-selection loop of `draw_elements_on_frame` (video-gen.py
lines 417-423): the first cue in sequence order with `start ≤ t < end`,
the loop breaking at the first hit. -/
def findActive : List Cue → ℚ → Option Cue
  | [], _ => none
  | c :: cs, t => if c.start ≤ t ∧ t < c.stop then some c else findActive cs t

/-- Image cycling of video-gen.py lines 322 and 376:
`int(t / (A / N)) % N`, with Python `%` on integers (`Int.emod`). -/
def imageIndex (A : ℚ) (N : ℕ) (t : ℚ) : ℕ :=
  ((pyInt (t / (A / (N : ℚ)))) % (N : ℤ)).toNat

/-- An image as the compositor observes it: its pixel dimensions. -/
structure ImgData where
  w : ℕ
  h : ℕ
  deriving DecidableEq

/-- The read-only filesystem state the compositor touches per frame:
`Image.open` on an image path, and `ImageFont.truetype(path, size)`, which
yields a text-width metric or fails (`none` models the caught `IOError`). -/
structure FS where
  image : String → Option ImgData
  font : String → ℕ → Option (String → ℕ)

/-- The immutable data captured by the `draw_elements_on_frame` closure. -/
structure RenderJob where
  title : String
  audioDuration : ℚ
  imagePaths : List String
  subtitles : List Cue
  targetW : ℕ
  targetH : ℕ

/-- The hard-coded font path of video-gen.py line 341. -/
def fontPath : String := "../data/fonts/sf-distant-galaxy-font/SfDistantGalaxy-0l3d.ttf"

/-- Metric of `ImageFont.load_default()`, the fallback font: an abstract
fixed width per character. -/
def defaultMetric : String → ℕ := fun s => 6 * s.length

/-- The composited frame as a layer description: base footage frame, wrapped
title lines, the image overlay (asset index and scaled dimensions) when one
is drawn, and the wrapped subtitle lines when a cue is active. -/
structure FrameSpec where
  base : ImgData
  titleLines : List String
  imageLayer : Option (ℕ × ℕ × ℕ)
  subtitle : Option (List String)
  deriving DecidableEq

/-- The title font metric: `ImageFont.truetype(font_path, int(th * 0.055))`
with fallback to the default font on `IOError` (video-gen.py lines 344-349). -/
def titleMeasOf (fs : FS) (job : RenderJob) : String → ℕ :=
  (fs.font fontPath (pyInt ((job.targetH : ℚ) * (55/1000))).toNat).getD defaultMetric

/-- The subtitle font metric: size `int(th * 0.05)` (video-gen.py line 407). -/
def subMeasOf (fs : FS) (job : RenderJob) : String → ℕ :=
  (fs.font fontPath (pyInt ((job.targetH : ℚ) * (5/100))).toNat).getD defaultMetric

/-- The image overlay of video-gen.py lines 375-398: the cycled asset is
re-opened from disk each frame, scaled to fit `int(tw * 0.96)` preserving
aspect; any error skips the overlay for this frame. -/
def imageLayerOf (fs : FS) (job : RenderJob) (t : ℚ) : Option (ℕ × ℕ × ℕ) :=
  if job.imagePaths.isEmpty then none
  else
    match job.imagePaths.get? (imageIndex job.audioDuration job.imagePaths.length t) with
    | none => none
    | some p =>
      match fs.image p with
      | none => none
      | some img =>
        let maxDim := (pyInt ((job.targetW : ℚ) * (96/100))).toNat
        let scale := min ((maxDim : ℚ) / (img.w : ℚ)) ((maxDim : ℚ) / (img.h : ℚ))
        some (imageIndex job.audioDuration job.imagePaths.length t,
          (pyInt ((img.w : ℚ) * scale)).toNat, (pyInt ((img.h : ℚ) * scale)).toNat)

/-- The subtitle layer of video-gen.py lines 417-487: the active cue's text,
wrapped at `int(tw * 0.9)`; no active cue means no subtitle drawing at all. -/
def subtitleLayerOf (fs : FS) (job : RenderJob) (t : ℚ) : Option (List String) :=
  match findActive job.subtitles t with
  | none => none
  | some c =>
      some (dynamic_wrap_text (subMeasOf fs job) (pyInt ((job.targetW : ℚ) * (9/10))).toNat c.text)

/-- `draw_elements_on_frame` (video-gen.py lines 329-490) as a layer
description: base frame at `t`, title wrapped at `int(tw * 0.85)`, the cycled
image overlay, and the active subtitle. -/
def drawFrame (fs : FS) (getFrame : ℚ → ImgData) (job : RenderJob) (t : ℚ) : FrameSpec :=
  { base := getFrame t
    titleLines :=
      dynamic_wrap_text (titleMeasOf fs job) (pyInt ((job.targetW : ℚ) * (85/100))).toNat job.title
    imageLayer := imageLayerOf fs job t
    subtitle := subtitleLayerOf fs job t }

/-- The crop-then-resize result of the aspect normalizer. -/
structure CropSpec where
  x1 : ℕ
  y1 : ℕ
  cropW : ℕ
  cropH : ℕ
  outW : ℕ
  outH : ℕ
  deriving DecidableEq

/-- Aspect normalization of video-gen.py lines 290-309: source `w × h` is
centre-cropped to the target aspect (wider sources lose width, otherwise
height), with Python `int()` truncation, then resized to exactly `tw × th`. -/
def aspectNormalize (w h tw th : ℕ) : CropSpec :=
  if (tw : ℚ) / (th : ℚ) < (w : ℚ) / (h : ℚ) then
    let nw := (pyInt ((h : ℚ) * ((tw : ℚ) / (th : ℚ)))).toNat
    ⟨(pyInt ((w : ℚ) / 2 - (nw : ℚ) / 2)).toNat, 0, nw, h, tw, th⟩
  else
    let nh := (pyInt ((w : ℚ) / ((tw : ℚ) / (th : ℚ)))).toNat
    ⟨0, (pyInt ((h : ℚ) / 2 - (nh : ℚ) / 2)).toNat, w, nh, tw, th⟩

/-- Concrete filesystem fixture: two downloadable images, no loadable font. -/
def fsW : FS :=
  ⟨fun p => if p = "a.png" then some ⟨100, 50⟩ else if p = "b.png" then some ⟨40, 40⟩ else none,
   fun _ _ => none⟩

/-- Like `fsW` but the content stored at `a.png` differs. -/
def fsW2 : FS :=
  ⟨fun p => if p = "a.png" then some ⟨50, 50⟩ else if p = "b.png" then some ⟨40, 40⟩ else none,
   fun _ _ => none⟩

/-- Like `fsW` but differing only at a path no job reads. -/
def fsW3 : FS :=
  ⟨fun p => if p = "zzz.png" then none else fsW.image p, fsW.font⟩

/-- Constant base-footage frame. -/
def gfW : ℚ → ImgData := fun _ => ⟨1080, 1920⟩

/-- Concrete render job fixture. -/
def rjW : RenderJob := ⟨"", 10, ["a.png", "b.png"], [⟨1, 7/2, "Hello there"⟩], 1080, 1920⟩

theorem pyInt_of_nonneg {x : ℚ} (hx : 0 ≤ x) : pyInt x = ⌊x⌋ := by
  simp [pyInt, hx]

theorem segmentBounds_none_of_lt {F A : ℚ} (r : ℚ) (h : F < A) :
    segmentBounds F A r = none := by
  unfold segmentBounds
  dsimp only
  rw [if_pos]
  exact lt_of_le_of_lt (min_le_right _ _) (by linarith)

theorem segmentBounds_duration {F A r s e : ℚ} (hr0 : 0 ≤ r) (hr1 : r ≤ 1)
    (h : segmentBounds F A r = some (s, e)) : e - s = A := by
  unfold segmentBounds at h
  dsimp only at h
  by_cases h1 : min (F * (4/5)) (F - A) < 0
  · rw [if_pos h1] at h; cases h
  rw [if_neg h1] at h
  push_neg at h1
  by_cases h2 : min (F * (4/5)) (F - A) = 0 ∧ A < F
  · rw [if_pos h2] at h
    have hne : ¬ (F + 1/100 < 0 + A) := by
      obtain ⟨-, hAF⟩ := h2
      push_neg
      linarith
    rw [if_neg hne] at h
    simp only [Option.some.injEq, Prod.mk.injEq] at h
    obtain ⟨hs, he⟩ := h
    subst hs
    subst he
    ring
  · rw [if_neg h2] at h
    have hm : r * min (F * (4/5)) (F - A) ≤ F - A :=
      le_trans (mul_le_of_le_one_left h1 hr1) (min_le_right _ _)
    have hne : ¬ (F + 1/100 < r * min (F * (4/5)) (F - A) + A) := by
      push_neg
      linarith
    rw [if_neg hne] at h
    simp only [Option.some.injEq, Prod.mk.injEq] at h
    obtain ⟨hs, he⟩ := h
    subst hs
    subst he
    ring

/-- C1 -/
theorem segment_selector_in_range (F A r : ℚ) (hA : 0 ≤ A) (hAF : A ≤ F)
    (hr0 : 0 ≤ r) (hr1 : r ≤ 1) :
    ∃ s e, segmentBounds F A r = some (s, e) ∧ 0 ≤ s ∧ s + A ≤ F ∧
      s ≤ min (F * (4/5)) (F - A) := by
  have hF : 0 ≤ F := hA.trans hAF
  have h80 : 0 ≤ F * (4/5) := by nlinarith
  have hfit : 0 ≤ F - A := by linarith
  have hmin : 0 ≤ min (F * (4/5)) (F - A) := le_min h80 hfit
  unfold segmentBounds
  dsimp only
  rw [if_neg (not_lt.mpr hmin)]
  by_cases h2 : min (F * (4/5)) (F - A) = 0 ∧ A < F
  · rw [if_pos h2, if_neg (show ¬ (F + 1/100 < 0 + A) by push_neg; linarith)]
    exact ⟨0, 0 + A, rfl, le_refl 0, by linarith, hmin⟩
  · rw [if_neg h2]
    have hm1 : r * min (F * (4/5)) (F - A) ≤ min (F * (4/5)) (F - A) :=
      mul_le_of_le_one_left hmin hr1
    have hm : r * min (F * (4/5)) (F - A) ≤ F - A := le_trans hm1 (min_le_right _ _)
    rw [if_neg (show ¬ (F + 1/100 < r * min (F * (4/5)) (F - A) + A) by push_neg; linarith)]
    exact ⟨_, _, rfl, mul_nonneg hr0 hmin, by linarith, hm1⟩

theorem segmentBounds_eq_eq : segmentBounds 10 10 (1/2) = some (0, 10) := by
  norm_num [segmentBounds, min_def]

/-- C2 counterexample -/
theorem equal_durations_job_succeeds :
    (create_youtube_short ⟨10, 10, 1/2, "t"⟩).artifact = some ("t_short.mp4", 10) ∧
    (create_youtube_short ⟨10, 10, 1/2, "t"⟩).framesRendered = 300 := by
  have h : create_youtube_short ⟨10, 10, 1/2, "t"⟩ =
      ⟨(pyInt ((10 - 0) * 30)).toNat, some (sanitizeTitle "t" ++ "_short.mp4", 10 - 0)⟩ := by
    unfold create_youtube_short
    rw [segmentBounds_eq_eq]
  rw [h]
  refine ⟨?_, ?_⟩
  · norm_num
    decide
  · norm_num [pyInt]
    decide

/-- C2 amended -/
theorem duration_mismatch_fails_job (j : JobSpec)
    (h : j.footageDuration < j.audioDuration) :
    create_youtube_short j = ⟨0, none⟩ ∧
    ∀ pre post, processJobs (pre ++ j :: post) =
      processJobs pre ++ (j.title, ⟨0, none⟩) :: processJobs post := by
  have hfail : create_youtube_short j = ⟨0, none⟩ := by
    unfold create_youtube_short
    rw [segmentBounds_none_of_lt j.rand h]
  refine ⟨hfail, fun pre post => ?_⟩
  simp [processJobs, hfail]

theorem duration_mismatch_fails_job_witness :
    create_youtube_short ⟨10, 12, 1/2, "s"⟩ = ⟨0, none⟩ ∧
    processJobs [⟨10, 4, 1/2, "t"⟩, ⟨10, 12, 1/2, "s"⟩] =
      processJobs [⟨10, 4, 1/2, "t"⟩] ++ ("s", ⟨0, none⟩) :: processJobs [] := by
  have h := duration_mismatch_fails_job ⟨10, 12, 1/2, "s"⟩ (by norm_num)
  exact ⟨h.1, h.2 [⟨10, 4, 1/2, "t"⟩] []⟩

/-- C3 -/
theorem rendered_duration_eq_audio (j : JobSpec) (hr0 : 0 ≤ j.rand) (hr1 : j.rand ≤ 1)
    (p : String) (d : ℚ) (h : (create_youtube_short j).artifact = some (p, d)) :
    d = j.audioDuration := by
  unfold create_youtube_short at h
  rcases heq : segmentBounds j.footageDuration j.audioDuration j.rand with - | ⟨s, e⟩
  · rw [heq] at h
    cases h
  · rw [heq] at h
    simp only [Option.some.injEq, Prod.mk.injEq] at h
    obtain ⟨-, hd⟩ := h
    rw [← hd]
    exact segmentBounds_duration hr0 hr1 heq

theorem segmentBounds_ten_four : segmentBounds 10 4 (1/2) = some (3, 7) := by
  norm_num [segmentBounds, min_def]

theorem rendered_duration_eq_audio_witness :
    (create_youtube_short ⟨10, 4, 1/2, "t"⟩).artifact = some ("t_short.mp4", 4) ∧
    (4 : ℚ) = (⟨10, 4, 1/2, "t"⟩ : JobSpec).audioDuration := by
  have h : (create_youtube_short ⟨10, 4, 1/2, "t"⟩).artifact =
      some ("t_short.mp4", 4) := by
    unfold create_youtube_short
    rw [segmentBounds_ten_four]
    norm_num
    decide
  exact ⟨h, rendered_duration_eq_audio _ (by norm_num) (by norm_num) _ _ h⟩

theorem wrapList_join (meas : String → ℕ) (bound : ℕ) :
    ∀ (ws cur : List String), (wrapList meas bound ws cur).join = cur ++ ws := by
  intro ws
  induction ws with
  | nil =>
    intro cur
    by_cases h : cur.isEmpty
    · simp [wrapList, h, List.isEmpty_iff.mp h]
    · simp [wrapList, h]
  | cons w ws ih =>
    intro cur
    simp only [wrapList]
    split_ifs with h1 h2
    · rw [ih (cur ++ [w])]
      simp
    · simp [List.isEmpty_iff.mp h2, ih]
    · simp [ih]

theorem wrapList_lines_ok (meas : String → ℕ) (bound : ℕ) :
    ∀ (ws cur : List String),
      (cur = [] ∨ (∃ w, cur = [w]) ∨ meas (joinWords cur) ≤ bound) →
      ∀ lw ∈ wrapList meas bound ws cur,
        (∃ w, lw = [w]) ∨ meas (joinWords lw) ≤ bound := by
  intro ws
  induction ws with
  | nil =>
    intro cur hinv lw hlw
    by_cases h : cur.isEmpty
    · simp [wrapList, h] at hlw
    · simp only [wrapList, if_neg h, List.mem_singleton] at hlw
      subst hlw
      rcases hinv with rfl | h1 | h1
      · simp at h
      · exact Or.inl h1
      · exact Or.inr h1
  | cons w ws ih =>
    intro cur hinv lw hlw
    simp only [wrapList] at hlw
    split_ifs at hlw with h1 h2
    · exact ih (cur ++ [w]) (Or.inr (Or.inr h1)) lw hlw
    · rcases List.mem_cons.mp hlw with rfl | hmem
      · exact Or.inl ⟨w, rfl⟩
      · exact ih [] (Or.inl rfl) lw hmem
    · rcases List.mem_cons.mp hlw with rfl | hmem
      · rcases hinv with rfl | h3 | h3
        · simp at h2
        · exact Or.inl h3
        · exact Or.inr h3
      · exact ih [w] (Or.inr (Or.inl ⟨w, rfl⟩)) lw hmem

/-- C4 -/
theorem dynamic_wrap_text_spec (meas : String → ℕ) (bound : ℕ) (text : String) :
    (∀ line ∈ dynamic_wrap_text meas bound text,
        meas line ≤ bound ∨ ∃ w ∈ splitWords text, line = w) ∧
    (wrapList meas bound (splitWords text) []).join = splitWords text ∧
    dynamic_wrap_text meas bound "" = [] := by
  refine ⟨?_, wrapList_join meas bound (splitWords text) [], by simp [dynamic_wrap_text]⟩
  intro line hline
  by_cases ht : text = ""
  · simp [dynamic_wrap_text, ht] at hline
  · simp only [dynamic_wrap_text, if_neg ht, List.mem_map] at hline
    obtain ⟨lw, hlw, rfl⟩ := hline
    rcases wrapList_lines_ok meas bound (splitWords text) [] (Or.inl rfl) lw hlw with
      ⟨w, rfl⟩ | hle
    · right
      refine ⟨w, ?_, rfl⟩
      have hw : w ∈ (wrapList meas bound (splitWords text) []).join :=
        List.mem_join.mpr ⟨[w], hlw, List.mem_singleton_self w⟩
      rw [wrapList_join meas bound (splitWords text) []] at hw
      simpa using hw
    · exact Or.inl hle

theorem digitChar_ne_of (d : ℕ) :
    digitChar d ≠ ' ' ∧ digitChar d ≠ ',' ∧ digitChar d ≠ ':' ∧ digitChar d ≠ '.' := by
  unfold digitChar
  split <;> decide

theorem digitChar_toNat {d : ℕ} (h : d < 10) : (digitChar d).toNat = 48 + d := by
  interval_cases d <;> decide

theorem digitChar_isDigit {d : ℕ} (h : d < 10) : (digitChar d).isDigit = true := by
  interval_cases d <;> decide

theorem digitsVal_pad2 {n : ℕ} (h : n < 100) : digitsVal (pad2 n) = n := by
  unfold digitsVal pad2
  rw [List.foldl_cons, List.foldl_cons, List.foldl_nil]
  rw [digitChar_toNat (show n / 10 < 10 by omega), digitChar_toNat (show n % 10 < 10 by omega)]
  omega

theorem digitsVal_pad3 {n : ℕ} (h : n < 1000) : digitsVal (pad3 n) = n := by
  unfold digitsVal pad3
  rw [List.foldl_cons, List.foldl_cons, List.foldl_cons, List.foldl_nil]
  rw [digitChar_toNat (show n / 100 < 10 by omega),
    digitChar_toNat (show n / 10 % 10 < 10 by omega),
    digitChar_toNat (show n % 10 < 10 by omega)]
  omega

theorem pad2_all_digit {n : ℕ} (h : n < 100) : (pad2 n).all Char.isDigit = true := by
  simp [pad2, digitChar_isDigit (show n / 10 < 10 by omega),
    digitChar_isDigit (show n % 10 < 10 by omega)]

theorem pad3_all_digit {n : ℕ} (h : n < 1000) : (pad3 n).all Char.isDigit = true := by
  simp [pad3, digitChar_isDigit (show n / 100 < 10 by omega),
    digitChar_isDigit (show n / 10 % 10 < 10 by omega),
    digitChar_isDigit (show n % 10 < 10 by omega)]

theorem splitOnChar_no_sep (sep : Char) :
    ∀ l, (∀ c ∈ l, c ≠ sep) → splitOnChar sep l = [l] := by
  intro l
  induction l with
  | nil => intro h; simp [splitOnChar]
  | cons c cs ih =>
    intro h
    have hc : c ≠ sep := h c (by simp)
    simp only [splitOnChar, if_neg hc]
    rw [ih (fun x hx => h x (by simp [hx]))]

theorem splitOnChar_append (sep : Char) :
    ∀ a rest, (∀ c ∈ a, c ≠ sep) →
      splitOnChar sep (a ++ sep :: rest) = a :: splitOnChar sep rest := by
  intro a
  induction a with
  | nil =>
    intro rest h
    simp [splitOnChar]
  | cons c cs ih =>
    intro rest h
    have hc : c ≠ sep := h c (by simp)
    simp only [List.cons_append, splitOnChar, if_neg hc, List.append_eq]
    rw [ih rest (fun x hx => h x (by simp [hx]))]

theorem splitArrowAux_no_space :
    ∀ l, (∀ c ∈ l, c ≠ ' ') → ∀ acc, splitArrowAux l acc = [acc.reverse ++ l] := by
  intro l
  induction l with
  | nil => intro h acc; simp [splitArrowAux]
  | cons c cs ih =>
    intro h acc
    have hc : c ≠ ' ' := h c (by simp)
    rw [show splitArrowAux (c :: cs) acc = splitArrowAux cs (c :: acc) by
      simp [splitArrowAux, hc]]
    rw [ih (fun x hx => h x (by simp [hx])) (c :: acc)]
    simp

theorem splitArrowAux_sandwich :
    ∀ st, (∀ c ∈ st, c ≠ ' ') → ∀ en acc,
      splitArrowAux (st ++ arrowSep ++ en) acc = (acc.reverse ++ st) :: splitArrowAux en [] := by
  intro st
  induction st with
  | nil =>
    intro h en acc
    simp [arrowSep, splitArrowAux]
  | cons c cs ih =>
    intro h en acc
    have hc : c ≠ ' ' := h c (by simp)
    have h1 : splitArrowAux ((c :: cs) ++ arrowSep ++ en) acc =
        splitArrowAux (cs ++ arrowSep ++ en) (c :: acc) := by
      simp only [List.cons_append]
      simp [splitArrowAux, hc]
    rw [h1, ih (fun x hx => h x (by simp [hx])) en (c :: acc)]
    simp

theorem splitArrow_sandwich (st en : List Char) (hst : ∀ c ∈ st, c ≠ ' ')
    (hen : ∀ c ∈ en, c ≠ ' ') :
    splitArrow (st ++ arrowSep ++ en) = [st, en] := by
  unfold splitArrow
  rw [splitArrowAux_sandwich st hst en [], splitArrowAux_no_space en hen []]
  simp

theorem timeRender_no_space (H M S ms : ℕ) : ∀ c ∈ timeRender H M S ms, c ≠ ' ' := by
  intro c hc h
  subst h
  simp [timeRender, pad2, pad3,
    show ∀ d, (' ' : Char) ≠ digitChar d from fun d => Ne.symm (digitChar_ne_of d).1] at hc

theorem pad2_no_colon (n : ℕ) : ∀ c ∈ pad2 n, c ≠ ':' := by
  intro c hc h
  subst h
  simp [pad2, show ∀ d, (':' : Char) ≠ digitChar d from
    fun d => Ne.symm (digitChar_ne_of d).2.2.1] at hc

theorem pad2_no_dot (n : ℕ) : ∀ c ∈ pad2 n, c ≠ '.' := by
  intro c hc h
  subst h
  simp [pad2, show ∀ d, ('.' : Char) ≠ digitChar d from
    fun d => Ne.symm (digitChar_ne_of d).2.2.2] at hc

theorem pad3_no_dot (n : ℕ) : ∀ c ∈ pad3 n, c ≠ '.' := by
  intro c hc h
  subst h
  simp [pad3, show ∀ d, ('.' : Char) ≠ digitChar d from
    fun d => Ne.symm (digitChar_ne_of d).2.2.2] at hc

theorem secfrac_no_colon (S ms : ℕ) : ∀ c ∈ pad2 S ++ ('.') :: pad3 ms, c ≠ ':' := by
  intro c hc h
  subst h
  simp [pad2, pad3, show ∀ d, (':' : Char) ≠ digitChar d from
    fun d => Ne.symm (digitChar_ne_of d).2.2.1] at hc

theorem parseDigits_pad2 {n : ℕ} (h : n < 100) : parseDigits (pad2 n) = some n := by
  unfold parseDigits
  rw [if_pos ⟨by simp [pad2], pad2_all_digit h⟩, digitsVal_pad2 h]

theorem parseDecimal_pad2 {n : ℕ} (h : n < 100) : parseDecimal (pad2 n) = some (n : ℚ) := by
  unfold parseDecimal
  rw [splitOnChar_no_sep ('.') (pad2 n) (pad2_no_dot n)]
  dsimp only
  rw [parseDigits_pad2 h]
  rfl

theorem parseDecimal_secfrac {S ms : ℕ} (hS : S < 100) (hms : ms < 1000) :
    parseDecimal (pad2 S ++ ('.') :: pad3 ms) = some ((S : ℚ) + (ms : ℚ) / 1000) := by
  unfold parseDecimal
  rw [splitOnChar_append ('.') (pad2 S) (pad3 ms) (pad2_no_dot S),
    splitOnChar_no_sep ('.') (pad3 ms) (pad3_no_dot ms)]
  dsimp only
  rw [if_neg (by simp [pad2]), if_pos ⟨pad2_all_digit hS, pad3_all_digit hms⟩]
  rw [digitsVal_pad2 hS, digitsVal_pad3 hms]
  norm_num [pad3]

theorem srtTime_timeRender {H M S ms : ℕ} (hH : H < 100) (hM : M < 100) (hS : S < 100)
    (hms : ms < 1000) :
    srtTimeToSeconds (timeRender H M S ms) =
      some ((H : ℚ) * 3600 + (M : ℚ) * 60 + ((S : ℚ) + (ms : ℚ) / 1000)) := by
  unfold srtTimeToSeconds
  have hmap : (timeRender H M S ms).map (fun c => if c = ',' then '.' else c) =
      pad2 H ++ (':') :: (pad2 M ++ (':') :: (pad2 S ++ ('.') :: pad3 ms)) := by
    simp [timeRender, pad2, pad3,
      show ∀ d, digitChar d ≠ ',' from fun d => (digitChar_ne_of d).2.1]
  rw [hmap]
  rw [splitOnChar_append (':') (pad2 H) _ (pad2_no_colon H),
    splitOnChar_append (':') (pad2 M) _ (pad2_no_colon M),
    splitOnChar_no_sep (':') (pad2 S ++ ('.') :: pad3 ms) (secfrac_no_colon S ms)]
  dsimp only
  rw [parseDecimal_pad2 hH, parseDecimal_pad2 hM, parseDecimal_secfrac hS hms]

theorem parseBlock_wellformed (idx : String) (k : ℤ) (hidx : pyParseInt idx.toList = some k)
    (H M S ms H2 M2 S2 ms2 : ℕ) (hH : H < 100) (hM : M < 100) (hS : S < 100) (hms : ms < 1000)
    (hH2 : H2 < 100) (hM2 : M2 < 100) (hS2 : S2 < 100) (hms2 : ms2 < 1000) (ts : List String) :
    parseBlock (idx :: String.mk (timeRender H M S ms ++ arrowSep ++ timeRender H2 M2 S2 ms2)
        :: ts) =
      some ⟨(H : ℚ) * 3600 + (M : ℚ) * 60 + ((S : ℚ) + (ms : ℚ) / 1000),
        (H2 : ℚ) * 3600 + (M2 : ℚ) * 60 + ((S2 : ℚ) + (ms2 : ℚ) / 1000), joinWords ts⟩ := by
  unfold parseBlock
  dsimp only
  rw [hidx]
  simp only [show (String.mk (timeRender H M S ms ++ arrowSep ++
      timeRender H2 M2 S2 ms2)).toList =
    timeRender H M S ms ++ arrowSep ++ timeRender H2 M2 S2 ms2 from rfl]
  rw [splitArrow_sandwich _ _ (timeRender_no_space H M S ms) (timeRender_no_space H2 M2 S2 ms2)]
  dsimp only
  rw [srtTime_timeRender hH hM hS hms, srtTime_timeRender hH2 hM2 hS2 hms2]

theorem parseSrtAux_eq_filterMap :
    ∀ (ls : List String) (cur : List String),
      parseSrtAux ls cur = (blocksAux ls cur).filterMap parseBlock := by
  intro ls
  induction ls with
  | nil =>
    intro cur
    by_cases h : cur.isEmpty
    · simp [parseSrtAux, blocksAux, h]
    · simp only [parseSrtAux, blocksAux, if_neg h]
      rcases hpb : parseBlock cur with - | c <;> simp [List.filterMap_cons, hpb]
  | cons l ls ih =>
    intro cur
    simp only [parseSrtAux, blocksAux]
    split_ifs with h1 h2
    · exact ih []
    · rw [ih []]
      rcases hpb : parseBlock cur with - | c <;> simp [List.filterMap_cons, hpb]
    · exact ih (cur ++ [trimS l])

theorem parse_srt_eq_filterMap (lines : List String) :
    parse_srt lines = (blocksOf lines).filterMap parseBlock :=
  parseSrtAux_eq_filterMap lines []

/-- C6 counterexample: the block with the unparsable time range
`notatime --> junk` is not skipped: it yields the bogus cue `(0, 0, "hi")`
because `srt_time_to_seconds` silently returns `0` for a string that does not
split into three colon-separated parts. -/
theorem garbage_time_range_not_skipped :
    parse_srt ["1", "notatime --> junk", "hi"] = [⟨0, 0, "hi"⟩] ∧
    parse_srt ["1", "notatime --> junk", "hi"] ≠ [] := by
  constructor
  · decide
  · decide

/-- C6 amended -/
theorem parse_srt_error_recovery :
    parseSrtFile none = [] ∧
    parse_srt [] = [] ∧
    ∀ lines, parse_srt lines = (blocksOf lines).filterMap parseBlock :=
  ⟨rfl, rfl, fun lines => parse_srt_eq_filterMap lines⟩

theorem scenario_block_chars :
    ("00:00:01,000 --> 00:00:03,500" : String) =
      String.mk (timeRender 0 0 1 0 ++ arrowSep ++ timeRender 0 0 3 500) := by
  decide

/-- C5 -/
theorem cue_parser_wellformed_block (idx : String) (k : ℤ)
    (hidx : pyParseInt idx.toList = some k)
    (H M S ms H2 M2 S2 ms2 : ℕ) (hH : H < 100) (hM : M < 100) (hS : S < 100) (hms : ms < 1000)
    (hH2 : H2 < 100) (hM2 : M2 < 100) (hS2 : S2 < 100) (hms2 : ms2 < 1000) (ts : List String) :
    parseBlock (idx :: String.mk (timeRender H M S ms ++ arrowSep ++ timeRender H2 M2 S2 ms2)
        :: ts) =
      some ⟨(H : ℚ) * 3600 + (M : ℚ) * 60 + ((S : ℚ) + (ms : ℚ) / 1000),
        (H2 : ℚ) * 3600 + (M2 : ℚ) * 60 + ((S2 : ℚ) + (ms2 : ℚ) / 1000), joinWords ts⟩ ∧
    parse_srt ["1", "00:00:01,000 --> 00:00:03,500", "Hello there"] =
      [⟨1, 7/2, "Hello there"⟩] := by
  refine ⟨parseBlock_wellformed idx k hidx H M S ms H2 M2 S2 ms2 hH hM hS hms hH2 hM2 hS2 hms2
    ts, ?_⟩
  rw [parse_srt_eq_filterMap]
  have hb : blocksOf ["1", "00:00:01,000 --> 00:00:03,500", "Hello there"] =
      [["1", "00:00:01,000 --> 00:00:03,500", "Hello there"]] := by decide
  rw [hb, scenario_block_chars]
  rw [List.filterMap_cons]
  rw [parseBlock_wellformed "1" 1 (by decide) 0 0 1 0 0 0 3 500 (by norm_num) (by norm_num)
    (by norm_num) (by norm_num) (by norm_num) (by norm_num) (by norm_num) (by norm_num)
    ["Hello there"]]
  simp only [List.filterMap_nil]
  norm_num [Cue.mk.injEq, joinWords]

theorem findActive_some_spec :
    ∀ (subs : List Cue) (t : ℚ) (c : Cue), findActive subs t = some c →
      (c.start ≤ t ∧ t < c.stop) ∧
      ∃ pre post, subs = pre ++ c :: post ∧ ∀ c2 ∈ pre, ¬(c2.start ≤ t ∧ t < c2.stop) := by
  intro subs t
  induction subs with
  | nil => intro c h; cases h
  | cons a rest ih =>
    intro c h
    unfold findActive at h
    split_ifs at h with ha
    · cases h
      exact ⟨ha, [], rest, rfl, by simp⟩
    · obtain ⟨hact, pre, post, heq, hpre⟩ := ih c h
      refine ⟨hact, a :: pre, post, by rw [heq, List.cons_append], ?_⟩
      intro c2 hc2
      rcases List.mem_cons.mp hc2 with rfl | hmem
      · exact ha
      · exact hpre c2 hmem

theorem findActive_none_iff :
    ∀ (subs : List Cue) (t : ℚ),
      findActive subs t = none ↔ ∀ c ∈ subs, ¬(c.start ≤ t ∧ t < c.stop) := by
  intro subs t
  induction subs with
  | nil => simp [findActive]
  | cons a rest ih =>
    unfold findActive
    split_ifs with ha
    · simp only [false_iff]
      intro h
      exact h a (List.mem_cons_self a rest) ha
    · rw [ih]
      constructor
      · intro h c hc
        rcases List.mem_cons.mp hc with rfl | hmem
        · exact ha
        · exact h c hmem
      · intro h c hc
        exact h c (List.mem_cons_of_mem a hc)

theorem active_cue_unique :
    ∀ (subs : List Cue) (t : ℚ),
      List.Pairwise (fun a b => a.stop ≤ b.start) subs →
      ∀ c ∈ subs, ∀ c2 ∈ subs,
        (c.start ≤ t ∧ t < c.stop) → (c2.start ≤ t ∧ t < c2.stop) → c = c2 := by
  intro subs t hp
  induction subs with
  | nil => simp
  | cons a rest ih =>
    rw [List.pairwise_cons] at hp
    intro c hc c2 hc2 hac hac2
    rcases List.mem_cons.mp hc with rfl | hcm
    · rcases List.mem_cons.mp hc2 with rfl | hc2m
      · rfl
      · have h1 := hp.1 c2 hc2m
        exact absurd hac2.1 (by push_neg; linarith [hac.2])
    · rcases List.mem_cons.mp hc2 with rfl | hc2m
      · have h1 := hp.1 c hcm
        exact absurd hac.1 (by push_neg; linarith [hac2.2])
      · exact ih hp.2 c hcm c2 hc2m hac hac2

/-- C7 -/
theorem frame_subtitle_selection (fs : FS) (gf : ℚ → ImgData) (job : RenderJob) (t : ℚ) :
    (∀ c, findActive job.subtitles t = some c →
      (c.start ≤ t ∧ t < c.stop) ∧
      (drawFrame fs gf job t).subtitle =
        some (dynamic_wrap_text (subMeasOf fs job)
          (pyInt ((job.targetW : ℚ) * (9/10))).toNat c.text) ∧
      ∃ pre post, job.subtitles = pre ++ c :: post ∧
        ∀ c2 ∈ pre, ¬(c2.start ≤ t ∧ t < c2.stop)) ∧
    (findActive job.subtitles t = none → (drawFrame fs gf job t).subtitle = none) ∧
    (List.Pairwise (fun a b => a.stop ≤ b.start) job.subtitles →
      ∀ c ∈ job.subtitles, ∀ c2 ∈ job.subtitles,
        (c.start ≤ t ∧ t < c.stop) → (c2.start ≤ t ∧ t < c2.stop) → c = c2) := by
  refine ⟨?_, ?_, active_cue_unique job.subtitles t⟩
  · intro c hc
    obtain ⟨hact, hsplit⟩ := findActive_some_spec job.subtitles t c hc
    refine ⟨hact, ?_, hsplit⟩
    show subtitleLayerOf fs job t = _
    unfold subtitleLayerOf
    rw [hc]
  · intro hnone
    show subtitleLayerOf fs job t = none
    unfold subtitleLayerOf
    rw [hnone]

theorem imageIndex_eq_floor {A t : ℚ} {N : ℕ} (hA : 0 < A) (hN : 0 < N)
    (ht0 : 0 ≤ t) (htA : t < A) :
    imageIndex A N t = (⌊t / (A / (N : ℚ))⌋).toNat ∧ (⌊t / (A / (N : ℚ))⌋).toNat < N := by
  have hNq : (0 : ℚ) < (N : ℚ) := by exact_mod_cast hN
  have hu : (0 : ℚ) < A / (N : ℚ) := div_pos hA hNq
  have hq0 : 0 ≤ t / (A / (N : ℚ)) := div_nonneg ht0 hu.le
  have hfl0 : 0 ≤ ⌊t / (A / (N : ℚ))⌋ := Int.floor_nonneg.mpr hq0
  have hlt : t / (A / (N : ℚ)) < (N : ℚ) := by
    rw [div_lt_iff hu]
    have : (N : ℚ) * (A / (N : ℚ)) = A := by field_simp
    rw [this]
    exact htA
  have hflN : ⌊t / (A / (N : ℚ))⌋ < (N : ℤ) := Int.floor_lt.mpr (by exact_mod_cast hlt)
  unfold imageIndex
  rw [pyInt_of_nonneg hq0, Int.emod_eq_of_lt hfl0 hflN]
  exact ⟨rfl, by omega⟩

theorem imageIndex_mono {A t t2 : ℚ} {N : ℕ} (hA : 0 < A) (hN : 0 < N)
    (ht0 : 0 ≤ t) (htt : t ≤ t2) (ht2A : t2 < A) :
    imageIndex A N t ≤ imageIndex A N t2 := by
  have hNq : (0 : ℚ) < (N : ℚ) := by exact_mod_cast hN
  have hu : (0 : ℚ) < A / (N : ℚ) := div_pos hA hNq
  obtain ⟨h1, -⟩ := imageIndex_eq_floor hA hN ht0 (lt_of_le_of_lt htt ht2A)
  obtain ⟨h2, -⟩ := imageIndex_eq_floor hA hN (ht0.trans htt) ht2A
  rw [h1, h2]
  have hdiv : t / (A / (N : ℚ)) ≤ t2 / (A / (N : ℚ)) := by gcongr
  have hmono : ⌊t / (A / (N : ℚ))⌋ ≤ ⌊t2 / (A / (N : ℚ))⌋ := Int.floor_le_floor hdiv
  omega

theorem imageIndex_share {A t : ℚ} {N k : ℕ} (hA : 0 < A) (hN : 0 < N) (hk : k < N)
    (ht0 : 0 ≤ t) (htA : t < A) :
    (k * (A / (N : ℚ)) ≤ t ∧ t < (k + 1) * (A / (N : ℚ))) ↔ imageIndex A N t = k := by
  have hNq : (0 : ℚ) < (N : ℚ) := by exact_mod_cast hN
  have hu : (0 : ℚ) < A / (N : ℚ) := div_pos hA hNq
  obtain ⟨hidx, hlt⟩ := imageIndex_eq_floor hA hN ht0 htA
  rw [hidx]
  constructor
  · rintro ⟨h1, h2⟩
    have hfl : ⌊t / (A / (N : ℚ))⌋ = (k : ℤ) := by
      rw [Int.floor_eq_iff]
      constructor
      · rw [le_div_iff hu]
        push_cast
        linarith
      · rw [div_lt_iff hu]
        push_cast
        push_cast at h2
        linarith
    omega
  · intro h
    have hfl : ⌊t / (A / (N : ℚ))⌋ = (k : ℤ) := by
      have h0 : 0 ≤ ⌊t / (A / (N : ℚ))⌋ := Int.floor_nonneg.mpr (div_nonneg ht0 hu.le)
      omega
    obtain ⟨hb1, hb2⟩ := Int.floor_eq_iff.mp hfl
    constructor
    · rw [le_div_iff hu] at hb1
      push_cast at hb1 ⊢
      linarith
    · rw [div_lt_iff hu] at hb2
      push_cast at hb2 ⊢
      linarith

/-- C8 -/
theorem image_cycling (fs : FS) (gf : ℚ → ImgData) (job : RenderJob) (t : ℚ)
    (hN : 0 < job.imagePaths.length) (hA : 0 < job.audioDuration)
    (himg : ∀ p ∈ job.imagePaths, (fs.image p).isSome = true)
    (ht0 : 0 ≤ t) (htA : t < job.audioDuration) :
    (∃ sw sh, (drawFrame fs gf job t).imageLayer =
        some (imageIndex job.audioDuration job.imagePaths.length t, sw, sh)) ∧
    imageIndex job.audioDuration job.imagePaths.length t =
      (⌊t / (job.audioDuration / (job.imagePaths.length : ℚ))⌋).toNat ∧
    (⌊t / (job.audioDuration / (job.imagePaths.length : ℚ))⌋).toNat < job.imagePaths.length ∧
    (∀ t2, t ≤ t2 → t2 < job.audioDuration →
      imageIndex job.audioDuration job.imagePaths.length t ≤
        imageIndex job.audioDuration job.imagePaths.length t2) ∧
    (∀ k, k < job.imagePaths.length →
      ((k * (job.audioDuration / (job.imagePaths.length : ℚ)) ≤ t ∧
        t < (k + 1) * (job.audioDuration / (job.imagePaths.length : ℚ))) ↔
       imageIndex job.audioDuration job.imagePaths.length t = k)) := by
  obtain ⟨hidx, hlt⟩ := imageIndex_eq_floor hA hN ht0 htA
  refine ⟨?_, hidx, hlt, fun t2 htt ht2A =>
    imageIndex_mono hA hN ht0 htt ht2A, fun k hk => imageIndex_share hA hN hk ht0 htA⟩
  show ∃ sw sh, imageLayerOf fs job t = _
  unfold imageLayerOf
  rw [if_neg (by simp only [List.isEmpty_iff]
                 exact List.ne_nil_of_length_pos hN)]
  have hbound : imageIndex job.audioDuration job.imagePaths.length t <
      job.imagePaths.length := by
    rw [hidx]
    exact hlt
  rw [List.get?_eq_get hbound]
  obtain ⟨img, himg2⟩ := Option.isSome_iff_exists.mp
    (himg _ (List.get_mem job.imagePaths _ hbound))
  dsimp only
  rw [himg2]
  exact ⟨_, _, rfl⟩

theorem toNat_pyInt_bounds {x : ℚ} (hx : 0 ≤ x) :
    ((pyInt x).toNat : ℚ) ≤ x ∧ x < (pyInt x).toNat + 1 := by
  rw [pyInt_of_nonneg hx]
  have h0 : 0 ≤ ⌊x⌋ := Int.floor_nonneg.mpr hx
  have hcast : ((⌊x⌋.toNat : ℕ) : ℚ) = ((⌊x⌋ : ℤ) : ℚ) := by
    exact_mod_cast congrArg Int.cast (Int.toNat_of_nonneg h0)
  constructor
  · rw [hcast]
    exact Int.floor_le x
  · rw [hcast]
    exact Int.lt_floor_add_one x

theorem pyInt_half_sub (w n : ℕ) (hnw : n ≤ w) :
    (pyInt ((w : ℚ) / 2 - (n : ℚ) / 2)).toNat = (w - n) / 2 := by
  have hcast : (w : ℚ) / 2 - (n : ℚ) / 2 = (((w - n : ℕ) : ℚ)) / (((2 : ℕ) : ℚ)) := by
    push_cast [hnw]
    ring
  rw [hcast, pyInt_of_nonneg (by positivity), Rat.floor_natCast_div_natCast]
  omega

/-- C9 counterexample -/
theorem crop_width_not_exact :
    (aspectNormalize 1000 300 1080 1920).cropW = 168 ∧
    ((aspectNormalize 1000 300 1080 1920).cropW : ℚ) ≠ (300 : ℚ) * ((1080 : ℚ) / 1920) := by
  have hcw : (aspectNormalize 1000 300 1080 1920).cropW = 168 := by
    norm_num [aspectNormalize, pyInt]
    rfl
  refine ⟨hcw, ?_⟩
  rw [hcw]
  norm_num

/-- C9 amended -/
theorem aspectNormalize_spec (w h tw th : ℕ) (hw : 0 < w) (hh : 0 < h)
    (htw : 0 < tw) (hth : 0 < th) :
    (aspectNormalize w h tw th).outW = tw ∧ (aspectNormalize w h tw th).outH = th ∧
    (((tw : ℚ) / th < (w : ℚ) / h) →
      (aspectNormalize w h tw th).cropH = h ∧ (aspectNormalize w h tw th).y1 = 0 ∧
      ((aspectNormalize w h tw th).cropW : ℚ) ≤ (h : ℚ) * ((tw : ℚ) / th) ∧
      (h : ℚ) * ((tw : ℚ) / th) < (aspectNormalize w h tw th).cropW + 1 ∧
      (aspectNormalize w h tw th).cropW ≤ w ∧
      (aspectNormalize w h tw th).x1 = (w - (aspectNormalize w h tw th).cropW) / 2 ∧
      (aspectNormalize w h tw th).x1 + (aspectNormalize w h tw th).cropW ≤ w) ∧
    ((¬ ((tw : ℚ) / th < (w : ℚ) / h)) →
      (aspectNormalize w h tw th).cropW = w ∧ (aspectNormalize w h tw th).x1 = 0 ∧
      ((aspectNormalize w h tw th).cropH : ℚ) ≤ (w : ℚ) / ((tw : ℚ) / th) ∧
      (w : ℚ) / ((tw : ℚ) / th) < (aspectNormalize w h tw th).cropH + 1 ∧
      (aspectNormalize w h tw th).cropH ≤ h ∧
      (aspectNormalize w h tw th).y1 = (h - (aspectNormalize w h tw th).cropH) / 2 ∧
      (aspectNormalize w h tw th).y1 + (aspectNormalize w h tw th).cropH ≤ h) := by
  have hhq : (0 : ℚ) < (h : ℚ) := by exact_mod_cast hh
  have hwq : (0 : ℚ) < (w : ℚ) := by exact_mod_cast hw
  have htwq : (0 : ℚ) < (tw : ℚ) := by exact_mod_cast htw
  have hthq : (0 : ℚ) < (th : ℚ) := by exact_mod_cast hth
  have hta : (0 : ℚ) < (tw : ℚ) / th := div_pos htwq hthq
  by_cases hcond : (tw : ℚ) / th < (w : ℚ) / h
  · have hred : aspectNormalize w h tw th =
        ⟨(pyInt ((w : ℚ) / 2 - (((pyInt ((h : ℚ) * ((tw : ℚ) / th))).toNat : ℕ) : ℚ) / 2)).toNat,
          0, (pyInt ((h : ℚ) * ((tw : ℚ) / th))).toNat, h, tw, th⟩ := by
      unfold aspectNormalize
      rw [if_pos hcond]
    have hx0 : (0 : ℚ) ≤ (h : ℚ) * ((tw : ℚ) / th) := by positivity
    obtain ⟨hb1, hb2⟩ := toNat_pyInt_bounds hx0
    have hxw : (h : ℚ) * ((tw : ℚ) / th) < (w : ℚ) := by
      have h1 : (h : ℚ) * ((tw : ℚ) / th) < (h : ℚ) * ((w : ℚ) / h) :=
        mul_lt_mul_of_pos_left hcond hhq
      have h2 : (h : ℚ) * ((w : ℚ) / h) = (w : ℚ) := by field_simp
      linarith
    have hnw : (pyInt ((h : ℚ) * ((tw : ℚ) / th))).toNat ≤ w := by
      have : ((pyInt ((h : ℚ) * ((tw : ℚ) / th))).toNat : ℚ) < (w : ℚ) := lt_of_le_of_lt hb1 hxw
      exact_mod_cast this.le
    rw [hred]
    refine ⟨rfl, rfl, fun _ => ⟨rfl, rfl, hb1, hb2, hnw, ?_, ?_⟩, fun hc => absurd hcond hc⟩
    · exact pyInt_half_sub w _ hnw
    · rw [pyInt_half_sub w _ hnw]
      dsimp only
      omega
  · have hred : aspectNormalize w h tw th =
        ⟨0, (pyInt ((h : ℚ) / 2 - (((pyInt ((w : ℚ) / ((tw : ℚ) / th))).toNat : ℕ) : ℚ) / 2)).toNat,
          w, (pyInt ((w : ℚ) / ((tw : ℚ) / th))).toNat, tw, th⟩ := by
      unfold aspectNormalize
      rw [if_neg hcond]
    have hx0 : (0 : ℚ) ≤ (w : ℚ) / ((tw : ℚ) / th) := by positivity
    obtain ⟨hb1, hb2⟩ := toNat_pyInt_bounds hx0
    have hxh : (w : ℚ) / ((tw : ℚ) / th) ≤ (h : ℚ) := by
      push_neg at hcond
      rw [div_le_iff hta]
      calc (w : ℚ) = (h : ℚ) * ((w : ℚ) / h) := by field_simp
        _ ≤ (h : ℚ) * ((tw : ℚ) / th) := by
            exact mul_le_mul_of_nonneg_left hcond hhq.le
        _ = (h : ℚ) * ((tw : ℚ) / th) := rfl
  -- conclude
    have hnh : (pyInt ((w : ℚ) / ((tw : ℚ) / th))).toNat ≤ h := by
      have : ((pyInt ((w : ℚ) / ((tw : ℚ) / th))).toNat : ℚ) ≤ (h : ℚ) := le_trans hb1 hxh
      exact_mod_cast this
    rw [hred]
    refine ⟨rfl, rfl, fun hc => absurd hc hcond, fun _ => ⟨rfl, rfl, hb1, hb2, hnh, ?_, ?_⟩⟩
    · exact pyInt_half_sub h _ hnh
    · rw [pyInt_half_sub h _ hnh]
      dsimp only
      omega

/-- C10 amended -/
theorem drawFrame_deterministic (fs fs2 : FS) (gf : ℚ → ImgData) (job : RenderJob) (t : ℚ)
    (hfont : ∀ sz, fs.font fontPath sz = fs2.font fontPath sz)
    (himg : ∀ p ∈ job.imagePaths, fs.image p = fs2.image p) :
    drawFrame fs gf job t = drawFrame fs2 gf job t := by
  unfold drawFrame
  congr 1
  · unfold dynamic_wrap_text titleMeasOf
    rw [hfont]
  · unfold imageLayerOf
    split_ifs with h
    · rfl
    · rcases hget : job.imagePaths.get?
          (imageIndex job.audioDuration job.imagePaths.length t) with - | p
      · rfl
      · dsimp only
        rw [himg p (List.get?_mem hget)]
  · unfold subtitleLayerOf
    rcases hfa : findActive job.subtitles t with - | c
    · rfl
    · dsimp only
      unfold dynamic_wrap_text subMeasOf
      rw [hfont]

theorem drawFrame_deterministic_witness :
    drawFrame fsW gfW rjW 0 = drawFrame fsW3 gfW rjW 0 :=
  drawFrame_deterministic fsW fsW3 gfW rjW 0 (fun _ => rfl) (by decide)

theorem imageIndex_ten_two_zero : imageIndex 10 2 0 = 0 := by
  norm_num [imageIndex, pyInt]

theorem imageLayer_fsW : imageLayerOf fsW rjW 0 = some (0, 1036, 518) := by
  unfold imageLayerOf
  rw [if_neg (by decide)]
  rw [show rjW.imagePaths = ["a.png", "b.png"] from rfl,
    show rjW.audioDuration = 10 from rfl, show rjW.targetW = 1080 from rfl]
  rw [show (["a.png", "b.png"] : List String).length = 2 from rfl]
  rw [imageIndex_ten_two_zero]
  rw [show (["a.png", "b.png"] : List String).get? 0 = some "a.png" from rfl]
  dsimp only
  rw [show fsW.image "a.png" = some ⟨100, 50⟩ from rfl]
  dsimp only
  rw [show (pyInt (((1080 : ℕ) : ℚ) * (96/100))).toNat = 1036 by
    norm_num [pyInt]
    decide]
  norm_num [pyInt, min_def]
  exact ⟨by decide, by decide⟩

theorem imageLayer_fsW2 : imageLayerOf fsW2 rjW 0 = some (0, 1036, 1036) := by
  unfold imageLayerOf
  rw [if_neg (by decide)]
  rw [show rjW.imagePaths = ["a.png", "b.png"] from rfl,
    show rjW.audioDuration = 10 from rfl, show rjW.targetW = 1080 from rfl]
  rw [show (["a.png", "b.png"] : List String).length = 2 from rfl]
  rw [imageIndex_ten_two_zero]
  rw [show (["a.png", "b.png"] : List String).get? 0 = some "a.png" from rfl]
  dsimp only
  rw [show fsW2.image "a.png" = some ⟨50, 50⟩ from rfl]
  dsimp only
  rw [show (pyInt (((1080 : ℕ) : ℚ) * (96/100))).toNat = 1036 by
    norm_num [pyInt]
    decide]
  norm_num [pyInt, min_def]
  decide

/-- C10 counterexample: the per-frame compositor re-opens the current image
asset from storage (`Image.open` inside `draw_elements_on_frame`), so its
output depends on filesystem state at composite time: two filesystems
differing only in the bytes stored at `a.png` yield different frames for the
same job data and the same `t`.  This refutes the claim that the compositing
step performs no storage access. -/
theorem compositor_reads_storage :
    drawFrame fsW gfW rjW 0 ≠ drawFrame fsW2 gfW rjW 0 := by
  intro h
  have h1 : (drawFrame fsW gfW rjW 0).imageLayer = (drawFrame fsW2 gfW rjW 0).imageLayer := by
    rw [h]
  rw [show (drawFrame fsW gfW rjW 0).imageLayer = imageLayerOf fsW rjW 0 from rfl,
    show (drawFrame fsW2 gfW rjW 0).imageLayer = imageLayerOf fsW2 rjW 0 from rfl,
    imageLayer_fsW, imageLayer_fsW2] at h1
  simp at h1

theorem segment_selector_in_range_witness :
    segmentBounds 10 4 (1/2) = some (3, 7) ∧ (0 : ℚ) ≤ 3 ∧ (3 : ℚ) + 4 ≤ 10 ∧
    (3 : ℚ) ≤ min (10 * (4/5)) (10 - 4) := by
  have hsb : segmentBounds 10 4 (1/2) = some (3, 7) := by norm_num [segmentBounds, min_def]
  obtain ⟨s, e, h1, h2, h3, h4⟩ :=
    segment_selector_in_range 10 4 (1/2) (by norm_num) (by norm_num) (by norm_num) (by norm_num)
  rw [hsb] at h1
  simp only [Option.some.injEq, Prod.mk.injEq] at h1
  obtain ⟨hs, he⟩ := h1
  subst hs
  exact ⟨hsb, h2, h3, h4⟩

theorem dynamic_wrap_text_spec_witness :
    dynamic_wrap_text String.length 5 "ab cd ef" = ["ab cd", "ef"] ∧
    dynamic_wrap_text String.length 5 "" = [] :=
  ⟨by decide, (dynamic_wrap_text_spec String.length 5 "ab cd ef").2.2⟩

theorem cue_parser_wellformed_block_witness :
    parseBlock ["1", "00:00:01,000 --> 00:00:03,500", "Hello there"] =
      some ⟨1, 7/2, "Hello there"⟩ := by
  rw [scenario_block_chars]
  rw [(cue_parser_wellformed_block "1" 1 (by decide) 0 0 1 0 0 0 3 500 (by norm_num)
    (by norm_num) (by norm_num) (by norm_num) (by norm_num) (by norm_num) (by norm_num)
    (by norm_num) ["Hello there"]).1]
  norm_num [Cue.mk.injEq, joinWords]

theorem frame_subtitle_selection_witness :
    ((1 : ℚ) ≤ 2 ∧ (2 : ℚ) < 7/2) ∧ (drawFrame fsW gfW rjW 2).subtitle ≠ none := by
  have hfind : findActive rjW.subtitles 2 = some ⟨1, 7/2, "Hello there"⟩ := by
    rw [show rjW.subtitles = [⟨1, 7/2, "Hello there"⟩] from rfl]
    unfold findActive
    rw [if_pos (by norm_num)]
  have h := (frame_subtitle_selection fsW gfW rjW 2).1 ⟨1, 7/2, "Hello there"⟩ hfind
  refine ⟨h.1, ?_⟩
  rw [h.2.1]
  simp

theorem image_cycling_witness :
    (∃ sw sh, (drawFrame fsW gfW rjW 6).imageLayer =
        some (imageIndex 10 2 6, sw, sh)) ∧ imageIndex 10 2 6 = 1 := by
  have h := image_cycling fsW gfW rjW 6 (by decide)
    (by show (0 : ℚ) < 10; norm_num) (by decide)
    (by norm_num) (by show (6 : ℚ) < 10; norm_num)
  exact ⟨h.1, by norm_num [imageIndex, pyInt]⟩

theorem aspectNormalize_spec_witness :
    (aspectNormalize 1000 300 1080 1920).outW = 1080 ∧
    (aspectNormalize 1000 300 1080 1920).cropH = 300 ∧
    (aspectNormalize 1000 300 1080 1920).cropW ≤ 1000 := by
  obtain ⟨h1, h2, h3, -⟩ := aspectNormalize_spec 1000 300 1080 1920 (by norm_num)
    (by norm_num) (by norm_num) (by norm_num)
  have hc : ((1080 : ℕ) : ℚ) / ((1920 : ℕ) : ℚ) < ((1000 : ℕ) : ℚ) / ((300 : ℕ) : ℚ) := by
    norm_num
  obtain ⟨g1, g2, g3, g4, g5, g6, g7⟩ := h3 hc
  exact ⟨h1, g1, g5⟩

end HolocronGen
